import Mathlib

/-!
Verification of the tenpadel ingestion pipeline.

This file gives a shallow embedding of the parts of the repository the
claims talk about:

* `services/db_import.py` — normalization, validation, identity resolution
  (`_compute_tournament_id`) and the upsert loop (`import_items`) over the
  sqlite `tournaments` table;
* `fetch_auto.py` — the French date parser `parse_date`;
* `fetch_paginated.py` — the French date parser `fr_to_iso_any`;
* `scrapers/tenup.py` — `TenUpScraper._extract_tournament_id`;
* the `ORDER BY` clauses of `fetch_all_tournaments` (`services/db_import.py`),
  `TournamentStore._export_json` (`services/tournament_store.py`) and
  `list_tournaments` (`api/tournaments.py`), as row comparators.

Conventions of the embedding:

* Python `str | None` values become `Option String`; a SQL `NULL` is `none`.
* Python `str.strip()` is modelled by `pyStrip`, which removes the ASCII
  whitespace characters (the repository's data never carries non-ASCII
  whitespace at the ends of fields).
* `re` patterns are compiled to purpose-built scanners that implement the
  exact leftmost-match-with-backtracking semantics of the pattern at hand;
  each scanner documents the pattern it implements.
* `hashlib.sha1(..).hexdigest()[:12]` is not re-implemented; every
  definition that needs it is parameterised by a `digest : String → String`
  function, and every theorem quantifies over it, since no claim depends on
  the value of the digest (only on it being a fixed pure function).
* Python's builtin `hash` on strings is salted per process
  (`PYTHONHASHSEED`); it is modelled as a parameter `pyhash : String → Int`,
  where two different processes correspond to two different parameters.
-/

/-! ## Basic helpers shared by the embedded modules -/

/-- A raw scraped record: an untyped string-keyed map, `none` meaning the
key is absent (Python `dict.get` returning `None`). -/
def Raw : Type := String → Option String

/-- The characters Python `str.strip()` removes (ASCII fragment). -/
def pyWs (c : Char) : Bool :=
  c = ' ' || c = '\t' || c = '\n' || c = '\r' || c = Char.ofNat 11 || c = Char.ofNat 12

/-- Strip `pyWs` characters from both ends of a character list. -/
def stripChars (l : List Char) : List Char :=
  ((l.dropWhile pyWs).reverse.dropWhile pyWs).reverse

/-- Python `str.strip()` (kernel-computable, unlike `String.trim`). -/
def pyStrip (s : String) : String := List.asString (stripChars s.data)

/-- Python `str.startswith(pre)` (kernel-computable, unlike
`String.startsWith`). -/
def pyStartsWith (s pre : String) : Bool := pre.data.isPrefixOf s.data

/-- Python truthiness of an optional string: `None` and `""` are falsy. -/
def pyTruthy (v : Option String) : Bool :=
  match v with
  | none => false
  | some s => decide (s ≠ "")

/-- Chained Python `or` over optional strings with a final string default:
`a or b or ... or dflt`. -/
def pyStrOr : List (Option String) → String → String
  | [], dflt => dflt
  | v :: rest, dflt =>
    match v with
    | none => pyStrOr rest dflt
    | some s => if s = "" then pyStrOr rest dflt else s

/-! ## `services/db_import.py` — data model -/

/-- The columns of the `tournaments` table written by the importer
(`DB_COLUMNS` in `services/db_import.py`). -/
inductive Col where
  | tournament_id
  | name
  | level
  | category
  | club_name
  | city
  | start_date
  | end_date
  | detail_url
  | registration_url
deriving DecidableEq, Repr

/-- `DB_COLUMNS` — the column order used to build the insert tuple and the
update loop. -/
def DB_COLUMNS : List Col :=
  [Col.tournament_id, Col.name, Col.level, Col.category, Col.club_name,
   Col.city, Col.start_date, Col.end_date, Col.detail_url, Col.registration_url]

/-- The raw-record key each optional column is read from in `_normalize`. -/
def colKey : Col → String
  | Col.tournament_id => "tournament_id"
  | Col.name => "name"
  | Col.level => "level"
  | Col.category => "category"
  | Col.club_name => "club_name"
  | Col.city => "city"
  | Col.start_date => "start_date"
  | Col.end_date => "end_date"
  | Col.detail_url => "detail_url"
  | Col.registration_url => "registration_url"

/-- A normalized candidate record, as the tuple of values `import_items`
reads per column (`item.get(col) for col in DB_COLUMNS`). -/
abbrev Item : Type := Col → Option String

/-- `new_value in (None, "")` from the update loop, negated: the candidate
value is present and non-empty. -/
def nonEmptyVal (v : Option String) : Bool :=
  match v with
  | none => false
  | some s => decide (s ≠ "")

/-- Helper for `_compute_tournament_id`: the capture of a search for the
regex `(\d+)(?:[^0-9]*$)`.  The pattern matches at the start of a digit run
that is followed only by non-digits, so the leftmost match captures the
LAST maximal digit run of the string.  `cur` is the digit run currently
being scanned, `best` the last completed run. -/
def lastDigitRunAux : List Char → List Char → Option (List Char) → Option (List Char)
  | [], cur, best => if cur.isEmpty then best else some cur
  | c :: cs, cur, best =>
    if c.isDigit then lastDigitRunAux cs (cur ++ [c]) best
    else if cur.isEmpty then lastDigitRunAux cs [] best
    else lastDigitRunAux cs [] (some cur)

/-- The last maximal digit run of a string, i.e. the group returned by
`DETAIL_ID.search` in `services/db_import.py`. -/
def lastDigitRun (s : String) : Option String :=
  (lastDigitRunAux s.data [] none).map List.asString

/-- `_compute_tournament_id(detail_url, explicit)` from
`services/db_import.py`: prefer the stripped explicit id when truthy; a
blank url yields `None`; otherwise the last digit run of the url, falling
back to `"h" + sha1(url).hexdigest()[:12]` (the digest is the `digest`
parameter here). -/
def compute_tournament_id (digest : String → String) (detail_url : String)
    (explicit : Option String) : Option String :=
  let e := pyStrip (explicit.getD "")
  if e ≠ "" then some e
  else
    let d := pyStrip detail_url
    if d = "" then none
    else
      match lastDigitRun d with
      | some g => some g
      | none => some ("h" ++ digest d)

/-- `_normalize(item)` from `services/db_import.py`, restricted to the
columns the importer later reads.  `detail_url` is the first truthy of the
`detail_url`/`url` aliases, stripped; `name` the first truthy of
`name`/`title` with default `"Tournoi"`, stripped; the remaining string
fields are stripped when present; `tournament_id` is recomputed from the
resolved url and the raw explicit id. -/
def normalizeItem (digest : String → String) (raw : Raw) : Item :=
  let durl := pyStrip (pyStrOr [raw "detail_url", raw "url"] "")
  let nm := pyStrip (pyStrOr [raw "name", raw "title"] "Tournoi")
  fun c =>
    match c with
    | Col.detail_url => some durl
    | Col.name => some nm
    | Col.tournament_id => compute_tournament_id digest durl (raw "tournament_id")
    | c => (raw (colKey c)).map pyStrip

/-- `_validate(item)` from `services/db_import.py`: the rejection reason, or
`none` for a valid candidate. -/
def validateItem (it : Item) : Option String :=
  let d := pyStrip ((it Col.detail_url).getD "")
  if d = "" then some "missing_detail_url"
  else if ¬ pyStartsWith d "http" then some "bad_detail_url"
  else none

/-- A stored row of the `tournaments` table: the autoincrement `id` plus the
ten data columns. -/
structure Row where
  id : Nat
  fields : Item

/-- The `tournaments` table plus the next autoincrement id. -/
structure DbState where
  rows : List Row
  nextId : Nat

/-- The empty `tournaments` table (sqlite autoincrement starts at 1). -/
def emptyDb : DbState := ⟨[], 1⟩

/-- The three upsert counters of one `import_items` call. -/
structure Cnts where
  inserted : Nat
  updated : Nat
  skipped : Nat
deriving DecidableEq, Repr

/-- The per-column update condition of the update loop in `import_items`:
`detail_url` is excluded, empty/absent candidate values are excluded, and
only differing values are written. -/
def updCond (ex : Row) (item : Item) (c : Col) : Bool :=
  if c = Col.detail_url then false
  else if nonEmptyVal (item c) then decide (ex.fields c ≠ item c)
  else false

/-- `if updates:` — at least one column must be written. -/
def hasUpdates (ex : Row) (item : Item) : Bool :=
  DB_COLUMNS.any (updCond ex item)

/-- The effect of the `UPDATE ... SET` statement on one matching row: the
`SET` list is computed from the fetched row `ex` and applied to `r`. -/
def updateRow (ex : Row) (item : Item) (r : Row) : Row :=
  ⟨r.id, fun c => if updCond ex item c then item c else r.fields c⟩

/-- `WHERE detail_url = ?` as a row predicate. -/
def rowMatches (item : Item) (r : Row) : Bool :=
  decide (r.fields Col.detail_url = item Col.detail_url)

/-- `SELECT * FROM tournaments WHERE detail_url = ?` with `fetchone()`. -/
def findByUrl (db : DbState) (item : Item) : Option Row :=
  db.rows.find? (rowMatches item)

/-- The insert branch of the upsert loop. -/
def insertStep (st : DbState × Cnts) (item : Item) : DbState × Cnts :=
  (⟨st.1.rows ++ [⟨st.1.nextId, item⟩], st.1.nextId + 1⟩,
   ⟨st.2.inserted + 1, st.2.updated, st.2.skipped⟩)

/-- The update branch of the upsert loop: the `UPDATE` statement touches
every row matching the url, with the `SET` list computed from the fetched
row `ex`. -/
def updateStep (st : DbState × Cnts) (ex : Row) (item : Item) : DbState × Cnts :=
  (⟨st.1.rows.map (fun r => if rowMatches item r then updateRow ex item r else r),
    st.1.nextId⟩,
   ⟨st.2.inserted, st.2.updated + 1, st.2.skipped⟩)

/-- The no-write branch of the upsert loop. -/
def skipStep (st : DbState × Cnts) : DbState × Cnts :=
  (st.1, ⟨st.2.inserted, st.2.updated, st.2.skipped + 1⟩)

/-- One iteration of the `for item in valid:` loop of `import_items`. -/
def upsertOne (st : DbState × Cnts) (item : Item) : DbState × Cnts :=
  match findByUrl st.1 item with
  | none => insertStep st item
  | some ex => if hasUpdates ex item then updateStep st ex item else skipStep st

/-- The whole upsert loop over the valid candidates. -/
def importValid (items : List Item) (st : DbState × Cnts) : DbState × Cnts :=
  items.foldl upsertOne st

/-- `ImportStats` from `services/db_import.py`; the `reasons` dict is
flattened into its two possible keys. -/
structure ImportStats where
  total : Nat
  valid : Nat
  inserted : Nat
  updated : Nat
  skipped : Nat
  rows_after : Nat
  missing_detail_url : Nat
  bad_detail_url : Nat
deriving DecidableEq, Repr

/-- The normalized forms of a batch, in input order. -/
def normalizedItems (digest : String → String) (raws : List Raw) : List Item :=
  raws.map (normalizeItem digest)

/-- The valid candidates of a batch, in input order. -/
def validItems (digest : String → String) (raws : List Raw) : List Item :=
  (normalizedItems digest raws).filter (fun it => (validateItem it).isNone)

/-- How many records of the batch were rejected with the given reason. -/
def reasonCount (digest : String → String) (raws : List Raw) (rsn : String) : Nat :=
  ((normalizedItems digest raws).filter
    (fun it => decide (validateItem it = some rsn))).length

/-- `import_items(items)` from `services/db_import.py`: classify the batch,
run the upsert loop, return the statistics and the new table.  (The early
return on an empty valid list produces the same statistics and table as the
general path, so it needs no separate branch.) -/
def import_items (digest : String → String) (raws : List Raw) (db : DbState) :
    ImportStats × DbState :=
  let valid := validItems digest raws
  let (db', c) := importValid valid (db, ⟨0, 0, 0⟩)
  (⟨raws.length, valid.length, c.inserted, c.updated, c.skipped, db'.rows.length,
    reasonCount digest raws "missing_detail_url",
    reasonCount digest raws "bad_detail_url"⟩, db')

/-! ## `services/db_import.py` — transactional model of the upsert loop

`import_items` opens one connection, runs every insert/update inside one
transaction, commits once after the loop, and on any exception rolls back
and re-raises (`try/except/finally` around the loop).  We model sqlite
failures with an oracle: `oracle k = true` means the `k`-th iteration's
write statement raises, `commitFails` that the final `commit()` raises.
The committed table is returned alongside the outcome; on a rollback it is
the table as it was before the call. -/

/-- The upsert loop run against a failure oracle inside the transaction;
`idx` numbers the iterations of the loop over the valid candidates.  A
skipped candidate executes no write, so the oracle is not consulted. -/
def importValidF (oracle : Nat → Bool) :
    List Item → DbState × Cnts → Nat → Except Unit (DbState × Cnts)
  | [], st, _ => .ok st
  | item :: rest, st, idx =>
    match findByUrl st.1 item with
    | none =>
      if oracle idx then .error ()
      else importValidF oracle rest (insertStep st item) (idx + 1)
    | some ex =>
      if hasUpdates ex item then
        if oracle idx then .error ()
        else importValidF oracle rest (updateStep st ex item) (idx + 1)
      else importValidF oracle rest (skipStep st) (idx + 1)

/-- `import_items` under the failure oracle.  An empty valid list returns
before a connection is opened (the early-return branch), so nothing can
fail there.  Otherwise a failed write or a failed commit rolls the
transaction back: the committed table is the original one and the
exception propagates (`Except.error`). -/
def import_itemsF (digest : String → String) (oracle : Nat → Bool)
    (commitFails : Bool) (raws : List Raw) (db : DbState) :
    Except Unit ImportStats × DbState :=
  let valid := validItems digest raws
  if valid.isEmpty then
    (.ok ⟨raws.length, 0, 0, 0, 0, db.rows.length,
      reasonCount digest raws "missing_detail_url",
      reasonCount digest raws "bad_detail_url"⟩, db)
  else
    match importValidF oracle valid (db, ⟨0, 0, 0⟩) 0 with
    | .error _ => (.error (), db)
    | .ok (db', c) =>
      if commitFails then (.error (), db)
      else
        (.ok ⟨raws.length, valid.length, c.inserted, c.updated, c.skipped,
          db'.rows.length,
          reasonCount digest raws "missing_detail_url",
          reasonCount digest raws "bad_detail_url"⟩, db')

/-! Sanity checks of the embedding on the scenario record of the spec. -/

/-- The raw record of the spec scenario. -/
def scenarioRaw : Raw := fun k =>
  if k = "title" then some "Open Padel"
  else if k = "url" then some "https://x/tournoi/42"
  else if k = "start_date" then some "12 nov. 2025"
  else none

example : lastDigitRun "https://x/tournoi/42" = some "42" := by decide
example : (normalizeItem (fun _ => "") scenarioRaw) Col.tournament_id = some "42" := by decide
example : validateItem (normalizeItem (fun _ => "") scenarioRaw) = none := by decide
example :
    (import_items (fun _ => "") [scenarioRaw] emptyDb).1.inserted = 1 := by decide

/-! ## `fetch_auto.py` — `parse_date`

`parse_date` lowercases and strips the text, turns apostrophes into
spaces, collapses whitespace runs, then searches for the pattern
`(\d{1,2})\s*([a-zéû\.]+)\s*(\d{4})?`; the month token is stripped of dots
and spaces and looked up in `MONTHS_FR`; `datetime(year, month, day)`
validates the calendar date (a `ValueError` is caught and yields `None`);
a missing year defaults to the current UTC year, modelled as the
`currentYear` parameter. -/

/-- The characters the `re` class `\s` matches on the repository's data
(ASCII whitespace and the no-break space). -/
def reWs (c : Char) : Bool := pyWs c || c = Char.ofNat 0xa0

/-- ASCII lowercasing of a character list (Python `str.lower()`; the
repository's date strings are already lowercase outside ASCII letters). -/
def lowerChars (l : List Char) : List Char := l.map Char.toLower

/-- `text.replace("'", " ").replace("’", " ")`. -/
def replaceApos (l : List Char) : List Char :=
  l.map (fun c => if c = Char.ofNat 39 || c = Char.ofNat 0x2019 then ' ' else c)

/-- `re.sub(r"\s+", " ", text)`: collapse whitespace runs to one space.
The flag records whether the previous character was whitespace. -/
def collapseWsAux : List Char → Bool → List Char
  | [], _ => []
  | c :: cs, prevWs =>
    if reWs c then
      if prevWs then collapseWsAux cs true else ' ' :: collapseWsAux cs true
    else c :: collapseWsAux cs false

/-- `re.sub(r"\s+", " ", text)`. -/
def collapseWs (l : List Char) : List Char := collapseWsAux l false

/-- The character class `[a-zéû\.]` of the month-token group. -/
def dateClassChar (c : Char) : Bool :=
  ('a' ≤ c && c ≤ 'z') || c = 'é' || c = 'û' || c = '.'

/-- Numeric value of a digit run. -/
def digitsToNat (l : List Char) : Nat :=
  l.foldl (fun a c => a * 10 + (c.toNat - 48)) 0

/-- Zero-padded decimal rendering (`%0wd` / `strftime` field). -/
def padNum (w n : Nat) : String :=
  let s := toString n
  List.asString (List.replicate (w - s.length) '0') ++ s

/-- After the day digits: `\s*([a-zéû\.]+)\s*(\d{4})?`.  Whitespace is
greedy with no useful backtracking (the later atoms match no whitespace),
the month group is the maximal class run and must be non-empty, and the
year group needs four consecutive digits or is absent. -/
def pdTryAfterDay (dayChars : List Char) (rest : List Char) :
    Option (Nat × String × Option Nat) :=
  let rest1 := rest.dropWhile reWs
  let tok := rest1.takeWhile dateClassChar
  if tok.isEmpty then none
  else
    let rest2 := (rest1.drop tok.length).dropWhile reWs
    let y4 := rest2.take 4
    let year := if y4.length = 4 && y4.all Char.isDigit then some (digitsToNat y4) else none
    some (digitsToNat dayChars, List.asString tok, year)

/-- Match of `(\d{1,2})\s*([a-zéû\.]+)\s*(\d{4})?` anchored at the current
position: the greedy day group tries two digits, then backtracks to one. -/
def pdMatchAt : List Char → Option (Nat × String × Option Nat)
  | [] => none
  | c1 :: rest1 =>
    if c1.isDigit then
      match rest1 with
      | c2 :: rest2 =>
        if c2.isDigit then
          match pdTryAfterDay [c1, c2] rest2 with
          | some r => some r
          | none => pdTryAfterDay [c1] rest1
        else pdTryAfterDay [c1] rest1
      | [] => pdTryAfterDay [c1] []
    else none

/-- `re.search` for the `parse_date` pattern: leftmost matching position. -/
def pdSearch : List Char → Option (Nat × String × Option Nat)
  | [] => none
  | c :: t =>
    match pdMatchAt (c :: t) with
    | some r => some r
    | none => pdSearch t

/-- `month_token.strip(". ")`. -/
def stripDotSpace (s : String) : String :=
  let f : Char → Bool := fun c => c = '.' || c = ' '
  List.asString (((s.data.dropWhile f).reverse.dropWhile f).reverse)

/-- `MONTHS_FR` from `fetch_auto.py`. -/
def MONTHS_FR : String → Option Nat
  | "janv" => some 1
  | "janvier" => some 1
  | "févr" => some 2
  | "fevr" => some 2
  | "février" => some 2
  | "fevrier" => some 2
  | "mars" => some 3
  | "avr" => some 4
  | "avril" => some 4
  | "mai" => some 5
  | "juin" => some 6
  | "juil" => some 7
  | "juillet" => some 7
  | "août" => some 8
  | "aout" => some 8
  | "sept" => some 9
  | "septembre" => some 9
  | "oct" => some 10
  | "octobre" => some 10
  | "nov" => some 11
  | "novembre" => some 11
  | "déc" => some 12
  | "dec" => some 12
  | "décembre" => some 12
  | "decembre" => some 12
  | _ => none

/-- Gregorian leap year (as `datetime` computes it). -/
def isLeapYear (y : Nat) : Bool := (y % 4 = 0 && y % 100 ≠ 0) || y % 400 = 0

/-- Days in a month (as `datetime` computes it). -/
def daysInMonth (y m : Nat) : Nat :=
  if m = 2 then (if isLeapYear y then 29 else 28)
  else if m = 4 || m = 6 || m = 9 || m = 11 then 30
  else 31

/-- The checks `datetime(year, month, day)` performs (`MINYEAR = 1`,
`MAXYEAR = 9999`); a failure raises `ValueError`, which `parse_date`
catches. -/
def validYMD (y m d : Nat) : Bool :=
  1 ≤ y && y ≤ 9999 && 1 ≤ m && m ≤ 12 && 1 ≤ d && d ≤ daysInMonth y m

/-- `parse_date(date_text)` from `fetch_auto.py`.  `currentYear` stands for
`datetime.utcnow().year`, used only when the year group is absent. -/
def parse_date (currentYear : Nat) (date_text : Option String) : Option String :=
  if ¬ pyTruthy date_text then none
  else
    let text := collapseWs (replaceApos (lowerChars (stripChars (date_text.getD "").data)))
    match pdSearch text with
    | none => none
    | some (day, tok, yOpt) =>
      match MONTHS_FR (stripDotSpace tok) with
      | none => none
      | some m =>
        let y := yOpt.getD currentYear
        if validYMD y m day then
          some (padNum 4 y ++ "-" ++ padNum 2 m ++ "-" ++ padNum 2 day)
        else none

/-! ## `fetch_paginated.py` — `fr_to_iso_any`

`RE_DATE` is `(\d{1,2})\s+(<month alternation>)\s+(\d{4})` (case folded by
lowering the text first).  The month alternation is tried alternative by
alternative at the current position, an optional trailing dot being tried
greedily; an alternative is kept only if `\s+(\d{4})` completes after it.
The matched substring `m.group(0)` is returned as the first component; the
second is the ISO date, or `None` when the (dot-stripped) token is missing
from `MONTH_MAP` — no calendar validation is performed. -/

/-- The alternatives of the month group of `RE_DATE`, in the order the
regex engine tries them (`x\.?` expands to `x.` then `x`; a character
class matches whichever single character the input has). -/
def frMonthAlts : List String :=
  ["janv.", "janv", "janvier", "févr.", "févr", "fevr.", "fevr", "février",
   "fevri", "mars", "avr.", "avr", "avril", "mai", "juin", "juil.", "juil",
   "juillet", "août", "aout", "sept.", "sept", "septembre", "oct.", "oct",
   "octobre", "nov.", "nov", "novembre", "déc.", "déc", "dec.", "dec",
   "décembre", "decembre"]

/-- Try the month alternatives in order at `rest1`; an alternative
succeeds only if it is followed by `\s+` and four digits.  Returns the
matched alternative, the matched whitespace and the year digits. -/
def frTryAlts : List String → List Char → Option (String × List Char × List Char)
  | [], _ => none
  | alt :: more, rest1 =>
    if alt.data.isPrefixOf rest1 then
      let rest2 := rest1.drop alt.data.length
      let ws2 := rest2.takeWhile reWs
      let yd := (rest2.drop ws2.length).take 4
      if ws2.isEmpty = false && yd.length = 4 && yd.all Char.isDigit then
        some (alt, ws2, yd)
      else frTryAlts more rest1
    else frTryAlts more rest1

/-- After the day digits: `\s+(<month>)\s+(\d{4})`.  Returns
`(group0, day, month_token, year)`. -/
def frAfterDay (dayChars : List Char) (rest : List Char) :
    Option (String × Nat × String × Nat) :=
  let ws1 := rest.takeWhile reWs
  if ws1.isEmpty then none
  else
    match frTryAlts frMonthAlts (rest.drop ws1.length) with
    | none => none
    | some (alt, ws2, yd) =>
      some (List.asString (dayChars ++ ws1 ++ alt.data ++ ws2 ++ yd),
            digitsToNat dayChars, alt, digitsToNat yd)

/-- Match of `RE_DATE` anchored at the current position (greedy two-digit
day with backtracking to one digit). -/
def frMatchAt : List Char → Option (String × Nat × String × Nat)
  | [] => none
  | c1 :: rest1 =>
    if c1.isDigit then
      match rest1 with
      | c2 :: rest2 =>
        if c2.isDigit then
          match frAfterDay [c1, c2] rest2 with
          | some r => some r
          | none => frAfterDay [c1] rest1
        else frAfterDay [c1] rest1
      | [] => frAfterDay [c1] []
    else none

/-- `RE_DATE.search`: leftmost matching position. -/
def frSearch : List Char → Option (String × Nat × String × Nat)
  | [] => none
  | c :: t =>
    match frMatchAt (c :: t) with
    | some r => some r
    | none => frSearch t

/-- `MONTH_MAP` from `fetch_paginated.py`. -/
def MONTH_MAP : String → Option Nat
  | "janvier" => some 1
  | "janv" => some 1
  | "février" => some 2
  | "fevrier" => some 2
  | "févr" => some 2
  | "fevr" => some 2
  | "mars" => some 3
  | "avril" => some 4
  | "avr" => some 4
  | "mai" => some 5
  | "juin" => some 6
  | "juillet" => some 7
  | "juil" => some 7
  | "août" => some 8
  | "aout" => some 8
  | "septembre" => some 9
  | "sept" => some 9
  | "octobre" => some 10
  | "oct" => some 10
  | "novembre" => some 11
  | "nov" => some 11
  | "décembre" => some 12
  | "decembre" => some 12
  | "déc" => some 12
  | "dec" => some 12
  | _ => none

/-- `mo_raw.replace(".", "")`: drop every dot. -/
def removeDots (s : String) : String :=
  List.asString (s.data.filter (fun c => ¬ (c = '.')))

/-- `fr_to_iso_any(text)` from `fetch_paginated.py`: the matched date text
and the (unvalidated) ISO rendering. -/
def fr_to_iso_any (txt : Option String) : Option String × Option String :=
  if ¬ pyTruthy txt then (none, none)
  else
    let t := (lowerChars (txt.getD "").data).map
      (fun c => if c = Char.ofNat 0xa0 then ' ' else c)
    match frSearch t with
    | none => (none, none)
    | some (g0, d, moRaw, y) =>
      match MONTH_MAP (removeDots moRaw) with
      | none => (some g0, none)
      | some mo =>
        (some g0, some (padNum 4 y ++ "-" ++ padNum 2 mo ++ "-" ++ padNum 2 d))

/-! Sanity checks of the two date parsers. -/

example : parse_date 2025 (some "5 oct. 2025") = some "2025-10-05" := by decide
example : parse_date 2025 (some "31 févr. 2025") = none := by decide
example : parse_date 2025 (some "05/10/2025") = none := by decide
example : fr_to_iso_any (some "5 oct. 2025") = (some "5 oct. 2025", some "2025-10-05") := by decide
example : fr_to_iso_any (some "31 févr. 2025") = (some "31 févr. 2025", some "2025-02-31") := by decide
example : fr_to_iso_any (some "05/10/2025") = (none, none) := by decide

/-! ## `scrapers/tenup.py` — `TenUpScraper._extract_tournament_id`

The scraper resolves an identifier for a tournament page: the page's
`[data-testid='tournament-id']` text when truthy, else the first match of
`(PAD[-_]\d+)` in the url, else the digits of the first match of
`/(\d{3,})`, else `str(abs(hash(url)))`.  The page text is the `pageId`
parameter; Python's salted string hash is the `pyhash` parameter (one
fixed function per interpreter process). -/

/-- Match of `PAD[-_]\d+` anchored at the current position: the literal
`PAD`, one of `-`/`_`, then a non-empty greedy digit run. -/
def padMatchAt : List Char → Option String
  | 'P' :: 'A' :: 'D' :: sep :: rest =>
    if sep = '-' || sep = '_' then
      let ds := rest.takeWhile Char.isDigit
      if ds.isEmpty then none else some (List.asString ('P' :: 'A' :: 'D' :: sep :: ds))
    else none
  | _ => none

/-- `re.search(r"(PAD[-_]\d+)", url)`: leftmost match. -/
def padSearch : List Char → Option String
  | [] => none
  | c :: t =>
    match padMatchAt (c :: t) with
    | some m => some m
    | none => padSearch t

/-- Match of `/(\d{3,})` anchored at the current position: a slash followed
by a greedy digit run of length at least three; the group is the run. -/
def slashDigitsMatchAt : List Char → Option String
  | '/' :: rest =>
    let ds := rest.takeWhile Char.isDigit
    if ds.length ≥ 3 then some (List.asString ds) else none
  | _ => none

/-- `re.search(r"/(\d{3,})", url)`: leftmost match. -/
def slashDigitsSearch : List Char → Option String
  | [] => none
  | c :: t =>
    match slashDigitsMatchAt (c :: t) with
    | some m => some m
    | none => slashDigitsSearch t

/-- `TenUpScraper._extract_tournament_id(page, url)` from
`scrapers/tenup.py`. -/
def extract_tournament_id (pyhash : String → Int) (pageId : Option String)
    (url : String) : String :=
  if pyTruthy pageId then pageId.getD ""
  else
    match padSearch url.data with
    | some m => m
    | none =>
      match slashDigitsSearch url.data with
      | some g => g
      | none => toString (pyhash url).natAbs

/-! ## Read-path and export orderings

Three queries return tournaments in some order:

* `fetch_all_tournaments` (`services/db_import.py`):
  `ORDER BY (start_date IS NULL OR start_date=''), start_date ASC, id DESC`;
* `TournamentStore._export_json` (`services/tournament_store.py`):
  `ORDER BY start_date ASC` and nothing else;
* `list_tournaments` (`api/tournaments.py`):
  `ORDER BY start_date IS NULL, start_date ASC, id DESC`.

Each `ORDER BY` clause is embedded as an `Ordering`-valued comparator over
`(id, start_date)`, the only columns the clauses mention.  SQLite compares
`NULL` below every string and strings byte-wise (the `BINARY` collation),
which on UTF-8 data coincides with `compare` on Lean strings. -/

/-- A row as far as the orderings are concerned. -/
structure OrdRow where
  id : Nat
  start_date : Option String
deriving DecidableEq, Repr

/-- SQLite comparison of a nullable text value: `NULL` first, then byte
order. -/
def sqliteCmpVal : Option String → Option String → Ordering
  | none, none => .eq
  | none, some _ => .lt
  | some _, none => .gt
  | some a, some b => compare a b

/-- The integer value of `(start_date IS NULL OR start_date='')`. -/
def nullOrEmptyFlag (r : OrdRow) : Nat :=
  if r.start_date = none ∨ r.start_date = some "" then 1 else 0

/-- The integer value of `start_date IS NULL` (the api's first key). -/
def nullFlag (r : OrdRow) : Nat := if r.start_date = none then 1 else 0

/-- The `ORDER BY` of `fetch_all_tournaments` (also the order of the
`export_db_to_json` JSON export, which serialises its result). -/
def cmpFetchAll (a b : OrdRow) : Ordering :=
  (compare (nullOrEmptyFlag a) (nullOrEmptyFlag b)).then
    ((sqliteCmpVal a.start_date b.start_date).then (compare b.id a.id))

/-- The `ORDER BY` of `TournamentStore._export_json`. -/
def cmpStoreExport (a b : OrdRow) : Ordering :=
  sqliteCmpVal a.start_date b.start_date

/-- The `ORDER BY` of the `/api/tournaments` read path. -/
def cmpApi (a b : OrdRow) : Ordering :=
  (compare (nullFlag a) (nullFlag b)).then
    ((sqliteCmpVal a.start_date b.start_date).then (compare b.id a.id))

/-- The ordering claimed by the spec, written from its words: `start_date`
ascending, rows whose `start_date` is null or empty placed last, ties
broken by identity (row id) descending. -/
def cmpSpecOrder (a b : OrdRow) : Ordering :=
  match nullOrEmptyFlag a, nullOrEmptyFlag b with
  | 0, 1 => .lt
  | 1, 0 => .gt
  | _, _ =>
    match sqliteCmpVal a.start_date b.start_date with
    | .lt => .lt
    | .gt => .gt
    | .eq => compare b.id a.id

/-! ## Supporting lemmas -/

theorem find?_append_of_some {α} (p : α → Bool) (l1 l2 : List α) (a : α)
    (h : l1.find? p = some a) : (l1 ++ l2).find? p = some a := by
  induction l1 with
  | nil => simp [List.find?] at h
  | cons x xs ih =>
    by_cases hx : p x
    · rw [List.find?_cons_of_pos _ hx] at h
      simpa [List.find?_cons_of_pos _ hx] using h
    · rw [List.find?_cons_of_neg _ (by simpa using hx)] at h
      simpa [List.find?_cons_of_neg _ (by simpa using hx)] using ih h

theorem find?_append_of_none {α} (p : α → Bool) (l1 l2 : List α)
    (h : l1.find? p = none) : (l1 ++ l2).find? p = l2.find? p := by
  induction l1 with
  | nil => simp
  | cons x xs ih =>
    by_cases hx : p x
    · rw [List.find?_cons_of_pos _ hx] at h; exact absurd h (by simp)
    · rw [List.find?_cons_of_neg _ (by simpa using hx)] at h
      simpa [List.find?_cons_of_neg _ (by simpa using hx)] using ih h

theorem find?_map_pres {α} (f : α → α) (p : α → Bool) (hp : ∀ x, p (f x) = p x)
    (l : List α) : (l.map f).find? p = (l.find? p).map f := by
  induction l with
  | nil => simp
  | cons x xs ih =>
    by_cases hx : p x
    · rw [List.find?_cons_of_pos _ hx]
      simp only [List.map_cons]
      rw [List.find?_cons_of_pos _ (by rw [hp]; exact hx)]
      rfl
    · rw [List.find?_cons_of_neg _ (by simpa using hx)]
      simp only [List.map_cons]
      rw [List.find?_cons_of_neg _ (by rw [hp]; simpa using hx)]
      exact ih

theorem every_col_mem : ∀ c : Col, c ∈ DB_COLUMNS := by
  intro c; cases c <;> simp [DB_COLUMNS]

theorem updCond_detail_url (ex : Row) (item : Item) :
    updCond ex item Col.detail_url = false := by
  simp [updCond]

theorem updateRow_field_detail_url (ex : Row) (item : Item) (r : Row) :
    (updateRow ex item r).fields Col.detail_url = r.fields Col.detail_url := by
  simp [updateRow, updCond_detail_url]

theorem rowMatches_updateRow (item item2 : Item) (ex r : Row) :
    rowMatches item (updateRow ex item2 r) = rowMatches item r := by
  simp [rowMatches, updateRow_field_detail_url]

theorem lastDigitRunAux_some_ne_nil :
    ∀ (cs cur : List Char) (best : Option (List Char)) (l : List Char),
      (∀ b, best = some b → b ≠ []) →
      lastDigitRunAux cs cur best = some l → l ≠ [] := by
  intro cs
  induction cs with
  | nil =>
    intro cur best l hb h
    simp only [lastDigitRunAux] at h
    by_cases hc : cur.isEmpty
    · rw [if_pos hc] at h; exact hb l h
    · rw [if_neg hc] at h
      cases h
      simpa [List.isEmpty_iff] using hc
  | cons c cs ih =>
    intro cur best l hb h
    simp only [lastDigitRunAux] at h
    by_cases hd : c.isDigit
    · rw [if_pos hd] at h; exact ih _ _ _ hb h
    · rw [if_neg hd] at h
      by_cases hc : cur.isEmpty
      · rw [if_pos hc] at h; exact ih _ _ _ hb h
      · rw [if_neg hc] at h
        refine ih _ _ _ ?_ h
        intro b hb'
        cases hb'
        simpa [List.isEmpty_iff] using hc

theorem lastDigitRun_some_ne_empty (s : String) (g : String)
    (h : lastDigitRun s = some g) : g ≠ "" := by
  simp only [lastDigitRun, Option.map_eq_some'] at h
  obtain ⟨l, hl, rfl⟩ := h
  have hne := lastDigitRunAux_some_ne_nil s.data [] none l (by simp) hl
  intro hcontra
  apply hne
  have : (List.asString l).data = ("" : String).data := by rw [hcontra]
  simpa [List.asString] using this

theorem append_h_ne_empty (x : String) : ("h" ++ x) ≠ "" := by
  intro h
  have : ("h" ++ x).data = ("" : String).data := by rw [h]
  simp [String.data_append] at this

/-! ## Claim C4 — the identity resolver's output -/

/-- C4 (counterexample): the claim says `resolve_id` "never fails, always
returns a non-empty token ... including when both are empty or absent",
but `_compute_tournament_id("", None)` returns `None`: with both the url
and the explicit id blank there is no token at all.  (The digest function
is irrelevant on this path; any instance exhibits the failure.) -/
theorem compute_tournament_id_blank_cx :
    compute_tournament_id (fun _ => "") "" none = none := by decide

/-- C4 (amended): `_compute_tournament_id` returns a non-empty token
whenever the stripped explicit id or the stripped detail url is non-empty;
only when both are blank does it return `None` (it never raises — it is a
total function).  -/
theorem compute_tournament_id_nonempty (digest : String → String)
    (detail_url : String) (explicit : Option String)
    (h : pyStrip (explicit.getD "") ≠ "" ∨ pyStrip detail_url ≠ "") :
    ∃ s, compute_tournament_id digest detail_url explicit = some s ∧ s ≠ "" := by
  by_cases he : pyStrip (explicit.getD "") ≠ ""
  · exact ⟨pyStrip (explicit.getD ""), by simp [compute_tournament_id, if_pos he], he⟩
  · have hd : pyStrip detail_url ≠ "" := h.resolve_left he
    simp only [compute_tournament_id, if_neg he, if_neg hd]
    cases hldr : lastDigitRun (pyStrip detail_url) with
    | none => exact ⟨_, rfl, append_h_ne_empty _⟩
    | some g => exact ⟨g, rfl, lastDigitRun_some_ne_empty _ _ hldr⟩

/-- C4 (witness): the amended theorem applied to the scenario url with no
explicit id. -/
theorem compute_tournament_id_nonempty_w :
    (pyStrip ((none : Option String).getD "") ≠ "" ∨ pyStrip "https://x/tournoi/42" ≠ "") ∧
    (∃ s, compute_tournament_id (fun _ => "") "https://x/tournoi/42" none = some s ∧ s ≠ "") ∧
    compute_tournament_id (fun _ => "") "https://x/tournoi/42" none = some "42" := by
  refine ⟨Or.inr (by decide), compute_tournament_id_nonempty _ _ _ (Or.inr (by decide)), by decide⟩

/-! ## Claim C5 — the date normalizers -/

/-- C5 (counterexample): the claim says the date normalizer maps
`"05/10/2025"` to `"2025-10-05"` and returns none for `"31 févr. 2025"`.
Neither normalizer in the source does: `parse_date` (fetch_auto.py) has no
numeric `DD/MM/YYYY` pattern and returns `None` on `"05/10/2025"`, and
`fr_to_iso_any` (fetch_paginated.py) also fails on `"05/10/2025"` while
happily producing the impossible date `"2025-02-31"` for
`"31 févr. 2025"` (it performs no calendar validation). -/
theorem normalize_date_roundtrip_cx :
    parse_date 2025 (some "05/10/2025") = none ∧
    (fr_to_iso_any (some "05/10/2025")).2 = none ∧
    (fr_to_iso_any (some "31 févr. 2025")).2 = some "2025-02-31" := by
  refine ⟨by decide, by decide, by decide⟩

/-- C5 (amended): both parsers map `"5 oct. 2025"` to `"2025-10-05"`;
`parse_date` returns none (without raising) on the invalid calendar date
`"31 févr. 2025"` and on the unsupported numeric form `"05/10/2025"`;
`fr_to_iso_any` returns none on `"05/10/2025"` but returns the unvalidated
`"2025-02-31"` for `"31 févr. 2025"`. -/
theorem normalize_date_roundtrip_amended :
    parse_date 2025 (some "5 oct. 2025") = some "2025-10-05" ∧
    parse_date 2025 (some "31 févr. 2025") = none ∧
    parse_date 2025 (some "05/10/2025") = none ∧
    fr_to_iso_any (some "5 oct. 2025") = (some "5 oct. 2025", some "2025-10-05") ∧
    fr_to_iso_any (some "05/10/2025") = (none, none) ∧
    (fr_to_iso_any (some "31 févr. 2025")).2 = some "2025-02-31" := by
  refine ⟨by decide, by decide, by decide, by decide, by decide, by decide⟩

/-! ## Claim C3 — identity stability across runs -/

/-- C3 (counterexample): the claim covers the cited
`TenUpScraper._extract_tournament_id`, whose final fallback is
`str(abs(hash(url)))`.  Python's string `hash` is salted per interpreter
process (`PYTHONHASHSEED`), so two ingestion runs are two different hash
functions; on a url with no `PAD`-style id and no 3-digit path segment the
resolved id differs between runs. -/
theorem extract_tournament_id_hash_cx :
    extract_tournament_id (fun _ => (1 : Int)) none "https://tenup.fft.fr/tournoi/abc" = "1" ∧
    extract_tournament_id (fun _ => (2 : Int)) none "https://tenup.fft.fr/tournoi/abc" = "2" ∧
    ("1" : String) ≠ "2" := by
  refine ⟨by decide, by decide, by decide⟩

/-- C3 (amended): (a) the ingestion identity resolver
`_compute_tournament_id` is a pure function of the detail-url aliases and
the explicit id: two raw records that agree on the `detail_url`, `url` and
`tournament_id` keys normalize to the same `tournament_id`, whatever their
other fields — there is no run-to-run variation on the import path;
(b) `TenUpScraper._extract_tournament_id` is independent of the process
hash seed whenever the page exposes an id or the url contains a
`PAD[-_]<digits>` token or a `/<three or more digits>` segment; only its
salted-hash fallback varies between runs. -/
theorem tournament_id_stability :
    (∀ (digest : String → String) (r1 r2 : Raw),
      r1 "detail_url" = r2 "detail_url" → r1 "url" = r2 "url" →
      r1 "tournament_id" = r2 "tournament_id" →
      normalizeItem digest r1 Col.tournament_id = normalizeItem digest r2 Col.tournament_id) ∧
    (∀ (h1 h2 : String → Int) (pageId : Option String) (url : String),
      pyTruthy pageId = true ∨ padSearch url.data ≠ none ∨ slashDigitsSearch url.data ≠ none →
      extract_tournament_id h1 pageId url = extract_tournament_id h2 pageId url) := by
  constructor
  · intro digest r1 r2 hdu hu ht
    simp only [normalizeItem, hdu, hu, ht]
  · intro h1 h2 pageId url h
    by_cases hp : pyTruthy pageId = true
    · simp [extract_tournament_id, hp]
    · have h' := (h.resolve_left hp)
      simp only [extract_tournament_id, Bool.not_eq_true] at hp ⊢
      rw [hp]
      simp only [Bool.false_eq_true, if_false]
      cases hpad : padSearch url.data with
      | some m => rfl
      | none =>
        cases hsd : slashDigitsSearch url.data with
        | some g => rfl
        | none =>
          rcases h' with h' | h'
          · exact absurd hpad h'
          · exact absurd hsd h'

/-- A raw record agreeing with `scenarioRaw` on the identity keys but with
an extra `city` field. -/
def scenarioRawCity : Raw := fun k =>
  if k = "city" then some "Nice" else scenarioRaw k

/-- C3 (witness): the amended theorem at concrete inputs — two records
differing only in `city` resolve to the same id, and the scraper id of a
url with a digit segment is seed-independent. -/
theorem tournament_id_stability_w :
    normalizeItem (fun _ => "") scenarioRaw Col.tournament_id =
      normalizeItem (fun _ => "") scenarioRawCity Col.tournament_id ∧
    extract_tournament_id (fun _ => (1 : Int)) none "https://tenup.fft.fr/tournoi/123" =
      extract_tournament_id (fun _ => (2 : Int)) none "https://tenup.fft.fr/tournoi/123" := by
  refine ⟨tournament_id_stability.1 _ scenarioRaw scenarioRawCity (by decide) (by decide) (by decide),
    tournament_id_stability.2 _ _ none _ (Or.inr (Or.inr (by decide)))⟩

/-! ## Claim C8 — export and read-path ordering -/

/-- C8 (counterexample): the claim says the JSON export and the read path
both return `start_date` ascending with null/empty last and ties broken by
id descending.  `TournamentStore._export_json` orders by `start_date ASC`
alone: it places an empty `start_date` first, not last, and leaves ties
unordered instead of id-descending; the api read path also places an empty
(non-null) `start_date` first.  Both differ from the claimed order (which
`fetch_all_tournaments` does implement). -/
theorem export_order_cx :
    cmpStoreExport ⟨1, some ""⟩ ⟨2, some "2025-01-01"⟩ = Ordering.lt ∧
    cmpApi ⟨1, some ""⟩ ⟨2, some "2025-01-01"⟩ = Ordering.lt ∧
    cmpSpecOrder ⟨1, some ""⟩ ⟨2, some "2025-01-01"⟩ = Ordering.gt ∧
    cmpFetchAll ⟨1, some ""⟩ ⟨2, some "2025-01-01"⟩ = Ordering.gt ∧
    cmpStoreExport ⟨1, some "2025-01-01"⟩ ⟨2, some "2025-01-01"⟩ = Ordering.eq ∧
    cmpSpecOrder ⟨1, some "2025-01-01"⟩ ⟨2, some "2025-01-01"⟩ = Ordering.gt := by
  refine ⟨by decide, by decide, by decide, by decide, by decide, by decide⟩

/-- C8 (amended): `fetch_all_tournaments` (and therefore the
`export_db_to_json` export built on it) implements exactly the claimed
order — `start_date` ascending, null-or-empty last, ties id descending;
the api read path agrees with it on rows whose `start_date` is neither
null nor empty; `TournamentStore._export_json` agrees on such rows only
when the dates differ (it has no tie-break). -/
theorem read_export_order_amended :
    (∀ a b : OrdRow, cmpFetchAll a b = cmpSpecOrder a b) ∧
    (∀ a b : OrdRow,
      a.start_date ≠ none → a.start_date ≠ some "" →
      b.start_date ≠ none → b.start_date ≠ some "" →
      cmpApi a b = cmpFetchAll a b) ∧
    (∀ a b : OrdRow,
      a.start_date ≠ none → a.start_date ≠ some "" →
      b.start_date ≠ none → b.start_date ≠ some "" →
      sqliteCmpVal a.start_date b.start_date ≠ Ordering.eq →
      cmpStoreExport a b = cmpFetchAll a b) := by
  refine ⟨?_, ?_, ?_⟩
  · intro a b
    unfold cmpFetchAll cmpSpecOrder nullOrEmptyFlag
    by_cases ha : a.start_date = none ∨ a.start_date = some "" <;>
      by_cases hb : b.start_date = none ∨ b.start_date = some "" <;>
        simp only [if_pos, if_neg, ha, hb, ite_true, ite_false] <;>
          cases hs : sqliteCmpVal a.start_date b.start_date <;>
            simp [Ordering.then, compare, compareOfLessAndEq]
  · intro a b ha1 ha2 hb1 hb2
    have hfa : nullOrEmptyFlag a = 0 := by simp [nullOrEmptyFlag, ha1, ha2]
    have hfb : nullOrEmptyFlag b = 0 := by simp [nullOrEmptyFlag, hb1, hb2]
    have hna : nullFlag a = 0 := by simp [nullFlag, ha1]
    have hnb : nullFlag b = 0 := by simp [nullFlag, hb1]
    unfold cmpApi cmpFetchAll
    rw [hfa, hfb, hna, hnb]
  · intro a b ha1 ha2 hb1 hb2 hne
    have hfa : nullOrEmptyFlag a = 0 := by simp [nullOrEmptyFlag, ha1, ha2]
    have hfb : nullOrEmptyFlag b = 0 := by simp [nullOrEmptyFlag, hb1, hb2]
    unfold cmpStoreExport cmpFetchAll
    rw [hfa, hfb]
    cases hs : sqliteCmpVal a.start_date b.start_date with
    | eq => exact absurd hs hne
    | lt => rfl
    | gt => rfl

/-- C8 (witness): the amended theorem at concrete rows with distinct,
non-empty dates. -/
theorem read_export_order_amended_w :
    cmpFetchAll ⟨1, some "2025-01-01"⟩ ⟨2, some "2025-03-04"⟩ =
      cmpSpecOrder ⟨1, some "2025-01-01"⟩ ⟨2, some "2025-03-04"⟩ ∧
    cmpApi ⟨1, some "2025-01-01"⟩ ⟨2, some "2025-03-04"⟩ =
      cmpFetchAll ⟨1, some "2025-01-01"⟩ ⟨2, some "2025-03-04"⟩ ∧
    cmpStoreExport ⟨1, some "2025-01-01"⟩ ⟨2, some "2025-03-04"⟩ =
      cmpFetchAll ⟨1, some "2025-01-01"⟩ ⟨2, some "2025-03-04"⟩ := by
  refine ⟨read_export_order_amended.1 _ _,
    read_export_order_amended.2.1 _ _ (by decide) (by decide) (by decide) (by decide),
    read_export_order_amended.2.2 _ _ (by decide) (by decide) (by decide) (by decide) (by decide)⟩

/-! ## Claim C10 — `detail_url` is never rewritten -/

/-- C10: when the upsert finds an existing row for the candidate's
`detail_url` (the update path), no row's `detail_url` changes: the column
is excluded from the `SET` clause, so the url column of the table is the
same list before and after the iteration. -/
theorem update_preserves_detail_url (st : DbState × Cnts) (item : Item) (ex : Row)
    (h : findByUrl st.1 item = some ex) :
    ((upsertOne st item).1.rows.map (fun r => r.fields Col.detail_url)) =
      st.1.rows.map (fun r => r.fields Col.detail_url) := by
  have hstep : upsertOne st item =
      if hasUpdates ex item then updateStep st ex item else skipStep st := by
    unfold upsertOne; rw [h]
  rw [hstep]
  by_cases hu : hasUpdates ex item
  · rw [if_pos hu]
    simp only [updateStep, List.map_map]
    apply List.map_congr_left
    intro r _
    by_cases hm : rowMatches item r
    · simp [Function.comp, hm, updateRow_field_detail_url]
    · simp [Function.comp, hm]
  · rw [if_neg hu]
    rfl

/-- A stored row used in the witnesses: city `"Nice"`. -/
def niceItem : Item := fun c =>
  match c with
  | Col.detail_url => some "https://x/tournoi/5"
  | Col.name => some "Open"
  | Col.city => some "Nice"
  | Col.tournament_id => some "5"
  | _ => none

/-- A table holding only the `"Nice"` row. -/
def niceDb : DbState := ⟨[⟨1, niceItem⟩], 2⟩

/-- A valid candidate for the same url with no `city` value and a changed
`name`. -/
def noCityItem : Item := fun c =>
  match c with
  | Col.detail_url => some "https://x/tournoi/5"
  | Col.name => some "Open Padel"
  | Col.tournament_id => some "5"
  | _ => none

/-- C10 (witness): the theorem applied to the `"Nice"` table. -/
theorem update_preserves_detail_url_w :
    ((upsertOne (niceDb, ⟨0, 0, 0⟩) noCityItem).1.rows.map
        (fun r => r.fields Col.detail_url)) =
      niceDb.rows.map (fun r => r.fields Col.detail_url) :=
  update_preserves_detail_url (niceDb, ⟨0, 0, 0⟩) noCityItem ⟨1, niceItem⟩ rfl

/-! ## Claim C1 — the asymmetric merge of the update path -/

/-- C1: on the update path (an existing row matches the valid candidate's
`detail_url`), the row after the upsert differs from the stored row only
in columns where the candidate value is non-empty and differs from the
stored value (and such columns receive exactly the candidate value); in
particular any column whose candidate value is empty or absent — however
the stored value reads — is left untouched. -/
theorem upsert_update_asymmetric_merge (st : DbState × Cnts) (item : Item) (ex : Row)
    (_hval : validateItem item = none)
    (h : findByUrl st.1 item = some ex) :
    ∃ ex', findByUrl (upsertOne st item).1 item = some ex' ∧ ex'.id = ex.id ∧
      (∀ c, ex'.fields c ≠ ex.fields c →
        c ≠ Col.detail_url ∧ nonEmptyVal (item c) = true ∧
          ex.fields c ≠ item c ∧ ex'.fields c = item c) ∧
      (∀ c, nonEmptyVal (item c) = false → ex'.fields c = ex.fields c) := by
  have hstep : upsertOne st item =
      if hasUpdates ex item then updateStep st ex item else skipStep st := by
    unfold upsertOne; rw [h]
  rw [hstep]
  by_cases hu : hasUpdates ex item
  · rw [if_pos hu]
    refine ⟨updateRow ex item ex, ?_, rfl, ?_, ?_⟩
    · show ((updateStep st ex item).1.rows.find? (rowMatches item)) = _
      simp only [updateStep]
      rw [find?_map_pres (fun r => if rowMatches item r then updateRow ex item r else r)
        (rowMatches item) ?_ st.1.rows]
      · unfold findByUrl at h
        rw [h]
        have hm : rowMatches item ex = true := List.find?_some h
        simp [hm]
      · intro r
        by_cases hm : rowMatches item r
        · simp [hm, rowMatches_updateRow]
        · simp [hm]
    · intro c hne
      by_cases hcond : updCond ex item c
      · refine ⟨?_, ?_, ?_, ?_⟩
        · intro hc
          subst hc
          rw [updCond_detail_url] at hcond
          exact absurd hcond (by simp)
        · unfold updCond at hcond
          split_ifs at hcond with h1 h2
          exact h2
        · unfold updCond at hcond
          split_ifs at hcond with h1 h2
          simpa using hcond
        · simp [updateRow, hcond]
      · exact absurd (by simp [updateRow, hcond]) hne
    · intro c hempty
      have hcond : updCond ex item c = false := by
        unfold updCond
        split_ifs with h1 h2
        · rfl
        · rw [hempty] at h2; exact absurd h2 (by simp)
        · rfl
      simp [updateRow, hcond]
  · rw [if_neg hu]
    exact ⟨ex, h, rfl, fun c hne => absurd rfl hne, fun c _ => rfl⟩

/-- C1 (witness): the theorem applied to the `"Nice"` table and the
candidate with no `city`; additionally, evaluating the upsert shows the
stored city is still `"Nice"` afterwards. -/
theorem upsert_update_asymmetric_merge_w :
    (∃ ex', findByUrl (upsertOne (niceDb, ⟨0, 0, 0⟩) noCityItem).1 noCityItem = some ex' ∧
      ex'.id = (⟨1, niceItem⟩ : Row).id ∧
      (∀ c, ex'.fields c ≠ (⟨1, niceItem⟩ : Row).fields c →
        c ≠ Col.detail_url ∧ nonEmptyVal (noCityItem c) = true ∧
          (⟨1, niceItem⟩ : Row).fields c ≠ noCityItem c ∧ ex'.fields c = noCityItem c) ∧
      (∀ c, nonEmptyVal (noCityItem c) = false →
        ex'.fields c = (⟨1, niceItem⟩ : Row).fields c)) ∧
    ((upsertOne (niceDb, ⟨0, 0, 0⟩) noCityItem).1.rows.map
        (fun r => r.fields Col.city)) = [some "Nice"] := by
  refine ⟨upsert_update_asymmetric_merge (niceDb, ⟨0, 0, 0⟩) noCityItem ⟨1, niceItem⟩
    (by decide) rfl, by decide⟩

/-! ## Claim C9 — the arithmetic invariant of `ImportStats` -/

theorem validateItem_cases (it : Item) :
    validateItem it = none ∨ validateItem it = some "missing_detail_url" ∨
      validateItem it = some "bad_detail_url" := by
  unfold validateItem
  by_cases h1 : pyStrip ((it Col.detail_url).getD "") = ""
  · simp [h1]
  · by_cases h2 : pyStartsWith (pyStrip ((it Col.detail_url).getD "")) "http"
    · simp [h1, h2]
    · simp [h1, h2]

theorem classify_partition (items : List Item) :
    items.length =
      (items.filter (fun it => (validateItem it).isNone)).length +
      (items.filter (fun it => decide (validateItem it = some "missing_detail_url"))).length +
      (items.filter (fun it => decide (validateItem it = some "bad_detail_url"))).length := by
  induction items with
  | nil => rfl
  | cons it items ih =>
    have hne : ("missing_detail_url" : String) ≠ "bad_detail_url" := by decide
    rcases validateItem_cases it with h | h | h <;>
      · simp [List.filter_cons, h, hne, hne.symm]
        omega

theorem upsertOne_counts (st : DbState × Cnts) (item : Item) :
    (upsertOne st item).2.inserted + (upsertOne st item).2.updated +
      (upsertOne st item).2.skipped
      = st.2.inserted + st.2.updated + st.2.skipped + 1 := by
  unfold upsertOne
  cases h : findByUrl st.1 item with
  | none => simp only [insertStep]; omega
  | some ex =>
    by_cases hu : hasUpdates ex item
    · simp only [hu, if_true, updateStep]; omega
    · simp only [hu, if_false, Bool.false_eq_true, skipStep]; omega

theorem importValid_counts (items : List Item) : ∀ st : DbState × Cnts,
    (importValid items st).2.inserted + (importValid items st).2.updated +
      (importValid items st).2.skipped
      = st.2.inserted + st.2.updated + st.2.skipped + items.length := by
  induction items with
  | nil => intro st; rfl
  | cons it items ih =>
    intro st
    simp only [importValid, List.foldl_cons] at ih ⊢
    rw [ih (upsertOne st it)]
    have := upsertOne_counts st it
    simp only [List.length_cons]
    omega

/-- C9: for every batch and every starting table, the returned statistics
satisfy `received = valid + missing_detail_url + bad_detail_url` and
`valid = inserted + updated + skipped`. -/
theorem import_stats_invariant (digest : String → String) (raws : List Raw)
    (db : DbState) :
    (import_items digest raws db).1.total =
      (import_items digest raws db).1.valid +
      (import_items digest raws db).1.missing_detail_url +
      (import_items digest raws db).1.bad_detail_url ∧
    (import_items digest raws db).1.valid =
      (import_items digest raws db).1.inserted +
      (import_items digest raws db).1.updated +
      (import_items digest raws db).1.skipped := by
  rcases hiv : importValid (validItems digest raws) (db, ⟨0, 0, 0⟩) with ⟨db2, c⟩
  simp only [import_items, hiv]
  constructor
  · have h1 : raws.length = (normalizedItems digest raws).length := by
      simp [normalizedItems]
    rw [h1]
    exact classify_partition (normalizedItems digest raws)
  · have h2 := importValid_counts (validItems digest raws) (db, ⟨0, 0, 0⟩)
    rw [hiv] at h2
    simp only at h2
    omega

/-! ## Claim C7 — batch atomicity -/

theorem importValidF_spec (oracle : Nat → Bool) :
    ∀ (items : List Item) (st : DbState × Cnts) (idx : Nat),
      importValidF oracle items st idx = .error () ∨
      importValidF oracle items st idx = .ok (importValid items st) := by
  intro items
  induction items with
  | nil => intro st idx; right; rfl
  | cons it items ih =>
    intro st idx
    have hfold : importValid (it :: items) st = importValid items (upsertOne st it) := by
      simp [importValid, List.foldl_cons]
    cases hf : findByUrl st.1 it with
    | none =>
      by_cases ho : oracle idx
      · left; simp [importValidF, hf, ho]
      · have hone : upsertOne st it = insertStep st it := by unfold upsertOne; rw [hf]
        rw [hfold, hone]
        simpa [importValidF, hf, ho] using ih (insertStep st it) (idx + 1)
    | some ex =>
      by_cases hu : hasUpdates ex it
      · by_cases ho : oracle idx
        · left; simp [importValidF, hf, hu, ho]
        · have hone : upsertOne st it = updateStep st ex it := by
            unfold upsertOne; rw [hf]; simp [hu]
          rw [hfold, hone]
          simpa [importValidF, hf, hu, ho] using ih (updateStep st ex it) (idx + 1)
      · have hone : upsertOne st it = skipStep st := by
          unfold upsertOne; rw [hf]; simp [hu]
        rw [hfold, hone]
        simpa [importValidF, hf, hu] using ih (skipStep st) (idx + 1)

/-- C7: batch atomicity.  Whatever subset of the writes (and the final
commit) the failure oracle makes raise, one ingestion call either leaves
the committed table exactly as it was (rolling back, with the error
propagating), or commits precisely the state and statistics of the
failure-free run: no partially-applied batch is ever visible. -/
theorem import_items_atomic (digest : String → String) (oracle : Nat → Bool)
    (commitFails : Bool) (raws : List Raw) (db : DbState) :
    import_itemsF digest oracle commitFails raws db = (.error (), db) ∨
    import_itemsF digest oracle commitFails raws db =
      (.ok (import_items digest raws db).1, (import_items digest raws db).2) := by
  by_cases hv : (validItems digest raws).isEmpty
  · right
    have hnil : validItems digest raws = [] := by simpa [List.isEmpty_iff] using hv
    simp [import_itemsF, import_items, hv, hnil, importValid]
  · rcases importValidF_spec oracle (validItems digest raws) (db, ⟨0, 0, 0⟩) 0 with h | h
    · left; simp [import_itemsF, hv, h]
    · rcases hiv : importValid (validItems digest raws) (db, ⟨0, 0, 0⟩) with ⟨db2, c⟩
      rw [hiv] at h
      by_cases hc : commitFails
      · left; simp [import_itemsF, hv, h, hc]
      · right; simp [import_itemsF, import_items, hv, h, hc, hiv]

/-! ## Claim C6 — no intra-batch collapse; last non-empty value wins -/

/-- First record of the C6 batch: two non-empty optional fields
(`city = "Nice"`, `club_name = "Club A"`). -/
def cxRawA : Raw := fun k =>
  if k = "url" then some "https://x/tournoi/7"
  else if k = "name" then some "Open"
  else if k = "city" then some "Nice"
  else if k = "club_name" then some "Club A"
  else none

/-- Second record of the C6 batch, same resolved identity, only one
non-empty optional field (`city = "Lyon"`). -/
def cxRawB : Raw := fun k =>
  if k = "url" then some "https://x/tournoi/7"
  else if k = "name" then some "Open"
  else if k = "city" then some "Lyon"
  else none

/-- C6 (counterexample): the claim predicts the two records (same resolved
id) collapse before upsert to the more complete first one, so one upsert
runs (`updated = 0`) and the stored city is `"Nice"`.  The code performs
no collapse: the first record is inserted, the second then updates the row
(`updated = 1`) and the stored city ends as `"Lyon"` — the less complete,
later record's value wins. -/
theorem batch_dedup_cx :
    (import_items (fun _ => "") [cxRawA, cxRawB] emptyDb).1.updated = 1 ∧
    ((import_items (fun _ => "") [cxRawA, cxRawB] emptyDb).2.rows.map
        (fun r => r.fields Col.city)) = [some "Lyon"] ∧
    (some "Lyon" : Option String) ≠ some "Nice" := by
  refine ⟨by decide, by decide, by decide⟩

/-- C6 (amended): within a batch, `import_items` does not collapse records
by resolved id; records sharing a `detail_url` are upserted in input order
against the same row, so for every column other than `detail_url` the
stored value ends as the last non-empty candidate value (the earlier value
surviving only where the later record is empty/absent) — not as the most
complete record, and ties favour the later record, not the first-seen. -/
theorem same_url_last_nonempty_wins (digest : String → String) (r1 r2 : Raw)
    (h1 : validateItem (normalizeItem digest r1) = none)
    (h2 : validateItem (normalizeItem digest r2) = none)
    (hu : normalizeItem digest r1 Col.detail_url = normalizeItem digest r2 Col.detail_url) :
    ∃ r, (import_items digest [r1, r2] emptyDb).2.rows = [r] ∧
      r.fields Col.detail_url = normalizeItem digest r1 Col.detail_url ∧
      ∀ c, c ≠ Col.detail_url →
        r.fields c = (if nonEmptyVal (normalizeItem digest r2 c) then
          normalizeItem digest r2 c else normalizeItem digest r1 c) := by
  have hvalid : validItems digest [r1, r2] =
      [normalizeItem digest r1, normalizeItem digest r2] := by
    simp [validItems, normalizedItems, List.filter_cons, h1, h2]
  set i1 := normalizeItem digest r1 with hi1
  set i2 := normalizeItem digest r2 with hi2
  have hfind1 : findByUrl emptyDb i1 = none := rfl
  have hstep1 : upsertOne (emptyDb, ⟨0, 0, 0⟩) i1 = (⟨[⟨1, i1⟩], 2⟩, ⟨1, 0, 0⟩) := by
    unfold upsertOne
    rw [hfind1]
    rfl
  have hmatch : rowMatches i2 ⟨1, i1⟩ = true := by
    simp [rowMatches, hu]
  have hfind2 : findByUrl (⟨[⟨1, i1⟩], 2⟩ : DbState) i2 = some ⟨1, i1⟩ := by
    simp [findByUrl, List.find?_cons_of_pos _ hmatch]
  have hrun : (import_items digest [r1, r2] emptyDb).2 =
      (upsertOne (upsertOne (emptyDb, ⟨0, 0, 0⟩) i1) i2).1 := by
    rcases hiv : importValid (validItems digest [r1, r2]) (emptyDb, ⟨0, 0, 0⟩) with ⟨db2, c⟩
    simp only [import_items, hiv]
    rw [hvalid] at hiv
    simp only [importValid, List.foldl_cons, List.foldl_nil] at hiv
    rw [hiv]
  rw [hrun, hstep1]
  have hstep2 : upsertOne (⟨[⟨1, i1⟩], 2⟩, ⟨1, 0, 0⟩) i2 =
      if hasUpdates ⟨1, i1⟩ i2 then updateStep (⟨[⟨1, i1⟩], 2⟩, ⟨1, 0, 0⟩) ⟨1, i1⟩ i2
      else skipStep (⟨[⟨1, i1⟩], 2⟩, ⟨1, 0, 0⟩) := by
    unfold upsertOne; rw [hfind2]
  rw [hstep2]
  by_cases hup : hasUpdates ⟨1, i1⟩ i2
  · rw [if_pos hup]
    refine ⟨updateRow ⟨1, i1⟩ i2 ⟨1, i1⟩, ?_, ?_, ?_⟩
    · simp [updateStep, hmatch]
    · rw [updateRow_field_detail_url]
    · intro c hc
      show (if updCond ⟨1, i1⟩ i2 c then i2 c else i1 c) = _
      unfold updCond
      rw [if_neg hc]
      by_cases hne : nonEmptyVal (i2 c)
      · rw [if_pos hne, if_pos hne]
        by_cases hd : (⟨1, i1⟩ : Row).fields c ≠ i2 c
        · simp [hd]
        · simp only [ne_eq, not_not] at hd
          simp [hd]
      · rw [if_neg hne, if_neg hne]
        simp
  · rw [if_neg hup]
    refine ⟨⟨1, i1⟩, rfl, rfl, ?_⟩
    intro c hc
    by_cases hne : nonEmptyVal (i2 c)
    · rw [if_pos hne]
      have hcond : updCond ⟨1, i1⟩ i2 c = false := by
        have := List.any_eq_false.mp (by simpa [hasUpdates] using hup) c (every_col_mem c)
        simpa using this
      unfold updCond at hcond
      rw [if_neg hc, if_pos hne] at hcond
      simpa using hcond
    · rw [if_neg hne]

/-- C6 (witness): the amended theorem applied to the C6 batch. -/
theorem same_url_last_nonempty_wins_w :
    validateItem (normalizeItem (fun _ => "") cxRawA) = none ∧
    validateItem (normalizeItem (fun _ => "") cxRawB) = none ∧
    normalizeItem (fun _ => "") cxRawA Col.detail_url =
      normalizeItem (fun _ => "") cxRawB Col.detail_url ∧
    (∃ r, (import_items (fun _ => "") [cxRawA, cxRawB] emptyDb).2.rows = [r] ∧
      r.fields Col.detail_url = normalizeItem (fun _ => "") cxRawA Col.detail_url ∧
      ∀ c, c ≠ Col.detail_url →
        r.fields c = (if nonEmptyVal (normalizeItem (fun _ => "") cxRawB c) then
          normalizeItem (fun _ => "") cxRawB c else normalizeItem (fun _ => "") cxRawA c)) := by
  refine ⟨by decide, by decide, by decide,
    same_url_last_nonempty_wins (fun _ => "") cxRawA cxRawB (by decide) (by decide) (by decide)⟩

/-! ## Claim C2 — idempotence of re-ingestion -/

/-- A candidate is *satisfied* by a table when its row exists and carries
every non-empty candidate value, so re-upserting it writes nothing. -/
def satisfies (db : DbState) (item : Item) : Prop :=
  ∃ r, findByUrl db item = some r ∧ hasUpdates r item = false

theorem hasUpdates_self (n : Nat) (item : Item) :
    hasUpdates ⟨n, item⟩ item = false := by
  apply List.any_eq_false.mpr
  intro c _
  simp only [Bool.not_eq_true]
  unfold updCond
  split_ifs with h1 h2
  · rfl
  · simp
  · rfl

theorem hasUpdates_updateRow_self (ex : Row) (item : Item) :
    hasUpdates (updateRow ex item ex) item = false := by
  apply List.any_eq_false.mpr
  intro c _
  simp only [Bool.not_eq_true]
  unfold updCond
  split_ifs with h1 h2
  · rfl
  · show decide ((updateRow ex item ex).fields c ≠ item c) = false
    by_cases hcond : updCond ex item c
    · simp [updateRow, hcond]
    · have : ex.fields c = item c := by
        unfold updCond at hcond
        rw [if_neg h1, if_pos h2] at hcond
        simpa using hcond
      simp [updateRow, hcond, this]
  · rfl

theorem sat_upsertOne_self (st : DbState × Cnts) (item : Item) :
    satisfies (upsertOne st item).1 item := by
  cases h : findByUrl st.1 item with
  | none =>
    have hone : upsertOne st item = insertStep st item := by
      unfold upsertOne; rw [h]
    rw [hone]
    have hfind : findByUrl (insertStep st item).1 item = some (Row.mk st.1.nextId item) := by
      show (st.1.rows ++ [Row.mk st.1.nextId item]).find? (rowMatches item) =
        some (Row.mk st.1.nextId item)
      rw [find?_append_of_none _ _ _ h]
      exact List.find?_cons_of_pos _ (by simp [rowMatches])
    exact ⟨Row.mk st.1.nextId item, hfind, hasUpdates_self st.1.nextId item⟩
  | some ex =>
    by_cases hup : hasUpdates ex item
    · have hone : upsertOne st item = updateStep st ex item := by
        unfold upsertOne; rw [h]; simp [hup]
      rw [hone]
      unfold satisfies
      refine ⟨updateRow ex item ex, ?_, hasUpdates_updateRow_self ex item⟩
      show (st.1.rows.map
          (fun r => if rowMatches item r then updateRow ex item r else r)).find?
            (rowMatches item) = some (updateRow ex item ex)
      rw [find?_map_pres _ _ ?_ st.1.rows]
      · unfold findByUrl at h
        rw [h]
        have hm : rowMatches item ex = true := List.find?_some h
        simp [hm]
      · intro r
        by_cases hm : rowMatches item r
        · simp [hm, rowMatches_updateRow]
        · simp [hm]
    · have hone : upsertOne st item = skipStep st := by
        unfold upsertOne; rw [h]; simp [hup]
      rw [hone]
      exact ⟨ex, h, by simpa using hup⟩

theorem sat_upsertOne_other (st : DbState × Cnts) (item item2 : Item)
    (hne : item Col.detail_url ≠ item2 Col.detail_url)
    (hs : satisfies st.1 item) : satisfies (upsertOne st item2).1 item := by
  obtain ⟨r, hf, hu⟩ := hs
  have hmr : r.fields Col.detail_url = item Col.detail_url := by
    simpa [rowMatches] using (List.find?_some hf)
  have hm2 : rowMatches item2 r = false := by
    simp [rowMatches, hmr, hne]
  cases h : findByUrl st.1 item2 with
  | none =>
    have hone : upsertOne st item2 = insertStep st item2 := by
      unfold upsertOne; rw [h]
    rw [hone]
    exact ⟨r, find?_append_of_some _ _ _ _ hf, hu⟩
  | some ex =>
    by_cases hup : hasUpdates ex item2
    · have hone : upsertOne st item2 = updateStep st ex item2 := by
        unfold upsertOne; rw [h]; simp [hup]
      rw [hone]
      unfold satisfies
      refine ⟨r, ?_, hu⟩
      show (st.1.rows.map
          (fun x => if rowMatches item2 x then updateRow ex item2 x else x)).find?
            (rowMatches item) = some r
      rw [find?_map_pres _ _ ?_ st.1.rows]
      · unfold findByUrl at hf
        rw [hf]
        simp [hm2]
      · intro x
        by_cases hmx : rowMatches item2 x
        · simp [hmx, rowMatches_updateRow]
        · simp [hmx]
    · have hone : upsertOne st item2 = skipStep st := by
        unfold upsertOne; rw [h]; simp [hup]
      rw [hone]
      exact ⟨r, hf, hu⟩

theorem sat_importValid_preserve (items : List Item) :
    ∀ (st : DbState × Cnts) (item : Item),
      (∀ i2 ∈ items, item Col.detail_url ≠ i2 Col.detail_url) →
      satisfies st.1 item → satisfies (importValid items st).1 item := by
  induction items with
  | nil => intro st item _ hs; exact hs
  | cons i items ih =>
    intro st item hne hs
    simp only [importValid, List.foldl_cons] at ih ⊢
    exact ih (upsertOne st i) item (fun i2 h2 => hne i2 (List.mem_cons_of_mem _ h2))
      (sat_upsertOne_other st item i (hne i (List.mem_cons_self i items)) hs)

theorem sat_importValid_all (items : List Item) :
    ∀ st : DbState × Cnts,
      items.Pairwise (fun a b => a Col.detail_url ≠ b Col.detail_url) →
      ∀ item ∈ items, satisfies (importValid items st).1 item := by
  induction items with
  | nil => intro st _ item h; simp at h
  | cons i items ih =>
    intro st hp item hmem
    rw [List.pairwise_cons] at hp
    simp only [importValid, List.foldl_cons] at ih ⊢
    rcases List.mem_cons.mp hmem with rfl | hmem'
    · exact sat_importValid_preserve items (upsertOne st item) item hp.1
        (sat_upsertOne_self st item)
    · exact ih (upsertOne st i) hp.2 item hmem'

theorem importValid_all_skip (items : List Item) :
    ∀ (db : DbState) (c : Cnts),
      (∀ item ∈ items, satisfies db item) →
      importValid items (db, c) = (db, ⟨c.inserted, c.updated, c.skipped + items.length⟩) := by
  induction items with
  | nil => intro db c _; rfl
  | cons i items ih =>
    intro db c hs
    obtain ⟨r, hf, hu⟩ := hs i (List.mem_cons_self i items)
    have hone : upsertOne (db, c) i = skipStep (db, c) := by
      unfold upsertOne
      rw [show findByUrl (db, c).1 i = some r from hf]
      simp [hu]
    simp only [importValid, List.foldl_cons] at ih ⊢
    rw [hone]
    show List.foldl upsertOne (db, (⟨c.inserted, c.updated, c.skipped + 1⟩ : Cnts)) items = _
    rw [ih db ⟨c.inserted, c.updated, c.skipped + 1⟩
      (fun item hm => hs item (List.mem_cons_of_mem _ hm))]
    simp only [List.length_cons]
    have : c.skipped + 1 + items.length = c.skipped + (items.length + 1) := by omega
    rw [this]

/-- C2 (amended): re-ingestion is idempotent for batches whose valid
candidates carry pairwise distinct detail urls (in particular any batch
with no intra-batch duplicates): the second run inserts nothing, updates
nothing, and counts every valid candidate as unchanged/skipped.  (The
restriction is forced: a batch holding two records with the same
`detail_url` but conflicting field values keeps rewriting the row on every
run — see the counterexample.) -/
theorem import_items_idempotent_on_distinct_urls (digest : String → String)
    (raws : List Raw) (db : DbState)
    (hdist : (validItems digest raws).Pairwise
      (fun a b => a Col.detail_url ≠ b Col.detail_url)) :
    (import_items digest raws ((import_items digest raws db).2)).1.inserted = 0 ∧
    (import_items digest raws ((import_items digest raws db).2)).1.updated = 0 ∧
    (import_items digest raws ((import_items digest raws db).2)).1.skipped =
      (import_items digest raws ((import_items digest raws db).2)).1.valid := by
  rcases hiv1 : importValid (validItems digest raws) (db, ⟨0, 0, 0⟩) with ⟨db1, c1⟩
  have hdb1 : (import_items digest raws db).2 = db1 := by
    simp [import_items, hiv1]
  have hsat : ∀ item ∈ validItems digest raws, satisfies db1 item := by
    intro item hm
    have := sat_importValid_all (validItems digest raws) (db, ⟨0, 0, 0⟩) hdist item hm
    rwa [hiv1] at this
  have hrun2 : importValid (validItems digest raws) (db1, ⟨0, 0, 0⟩) =
      (db1, ⟨0, 0, 0 + (validItems digest raws).length⟩) :=
    importValid_all_skip _ db1 ⟨0, 0, 0⟩ hsat
  rw [hdb1]
  simp [import_items, hrun2]

/-- First record of the conflicting batch for the C2 counterexample. -/
def dupRawA : Raw := fun k =>
  if k = "url" then some "https://x/tournoi/9"
  else if k = "city" then some "Nice"
  else none

/-- Second record: same `detail_url`, conflicting `city`. -/
def dupRawB : Raw := fun k =>
  if k = "url" then some "https://x/tournoi/9"
  else if k = "city" then some "Lyon"
  else none

/-- C2 (counterexample): the claim quantifies over every batch, but a batch
holding two valid records with the same `detail_url` and conflicting field
values is not idempotent: immediately after a first successful run, the
second run still reports `updated = 2` (each record keeps flipping the
city back), not `inserted = 0 ∧ updated = 0`. -/
theorem import_items_not_idempotent_cx :
    (import_items (fun _ => "") [dupRawA, dupRawB]
      ((import_items (fun _ => "") [dupRawA, dupRawB] emptyDb).2)).1.updated = 2 ∧
    (2 : Nat) ≠ 0 := by
  refine ⟨by decide, by decide⟩

/-- C2 (witness): the amended theorem applied to the spec's scenario —
ingesting the single record twice from an empty table reports
`inserted = 1` on the first call and `inserted = 0, updated = 0` with the
one valid candidate counted as unchanged (`skipped = 1`) on the second. -/
theorem import_items_idempotent_w :
    (validItems (fun _ => "") [scenarioRaw]).Pairwise
      (fun a b => a Col.detail_url ≠ b Col.detail_url) ∧
    (import_items (fun _ => "") [scenarioRaw] emptyDb).1.inserted = 1 ∧
    (import_items (fun _ => "") [scenarioRaw]
      ((import_items (fun _ => "") [scenarioRaw] emptyDb).2)).1.inserted = 0 ∧
    (import_items (fun _ => "") [scenarioRaw]
      ((import_items (fun _ => "") [scenarioRaw] emptyDb).2)).1.updated = 0 ∧
    (import_items (fun _ => "") [scenarioRaw]
      ((import_items (fun _ => "") [scenarioRaw] emptyDb).2)).1.skipped =
      (import_items (fun _ => "") [scenarioRaw]
        ((import_items (fun _ => "") [scenarioRaw] emptyDb).2)).1.valid ∧
    (import_items (fun _ => "") [scenarioRaw]
      ((import_items (fun _ => "") [scenarioRaw] emptyDb).2)).1.skipped = 1 := by
  have hp : (validItems (fun _ => "") [scenarioRaw]).Pairwise
      (fun a b => a Col.detail_url ≠ b Col.detail_url) := by
    have hval : validItems (fun _ => "") [scenarioRaw] =
        [normalizeItem (fun _ => "") scenarioRaw] := by
      simp only [validItems, normalizedItems, List.map_cons, List.map_nil,
        List.filter_cons, List.filter_nil]
      rw [if_pos (by decide)]
    rw [hval]
    simp
  have hmain := import_items_idempotent_on_distinct_urls (fun _ => "") [scenarioRaw]
    emptyDb hp
  exact ⟨hp, by decide, hmain.1, hmain.2.1, hmain.2.2, by decide⟩
